import Mathlib

/-!
Verification of the claim-tracking core of the scheduler's DRA manager
(`pkg/scheduler/framework/runtime/dra_manager.go`): a `claimTracker`
composed of an optimistic assume cache (keyed by `"<namespace>/<name>"`)
and an in-flight allocation ledger keyed by claim UID.

The assume cache itself (`pkg/scheduler/util/assumecache`) is an external
collaborator whose source is not part of this excerpt; its behaviour is
modelled from the specification (Get/GetAPIObj/Assume/Restore/List with
newer-than validation). The tracker operations are translated from the Go
source.
-/

/-- A ResourceClaim as the tracker sees it: identity `(ns, name)`,
a stable UID, a resource version (the ordering the assume cache validates
against), and `Status.Allocation` modelled as an optional payload. -/
structure ResourceClaim where
  ns : String
  name : String
  uid : String
  resourceVersion : Nat
  allocation : Option String
deriving DecidableEq

/-- The `"<namespace>/<name>"` key used by the assume cache
(`cache.MetaNamespaceKeyFunc`). -/
def ResourceClaim.key (c : ResourceClaim) : String :=
  c.ns ++ "/" ++ c.name

/-- An untyped object as stored by the generic assume cache: either a
claim or an object of some other kind (carrying its key and version so
cache operations stay total). -/
inductive CacheObj where
  | claim (c : ResourceClaim)
  | other (kind : String) (key : String) (version : Nat)
deriving DecidableEq

/-- Whether a cached object is a claim (the runtime type check
`obj.(*resourceapi.ResourceClaim)` succeeds). -/
def CacheObj.isClaim : CacheObj → Bool
  | .claim _ => true
  | .other _ _ _ => false

/-- The cache key of an object. -/
def CacheObj.objKey : CacheObj → String
  | .claim c => c.key
  | .other _ k _ => k

/-- The version the cache's newer-than ordering compares. -/
def CacheObj.version : CacheObj → Nat
  | .claim c => c.resourceVersion
  | .other _ _ v => v

/-- Errors surfaced by the tracker: the cache's not-found error, the
tracker's type-mismatch error (reporting the observed kind), and the
cache's stale-write rejection of `Assume`. -/
inductive TrackerError where
  | notFound (key : String)
  | typeMismatch (kind : String) (ns : String) (name : String)
  | staleAssume (key : String)
deriving DecidableEq

/-- First-match lookup in an association list (the map semantics of both
the assume cache's store and the ledger's `sync.Map.Load`). -/
def lookupKey {β : Type} (k : String) : List (String × β) → Option β
  | [] => none
  | p :: rest => if p.1 = k then some p.2 else lookupKey k rest

/-- Remove every binding of a key (the map semantics of
`sync.Map.LoadAndDelete` / `Delete`). -/
def eraseKey {β : Type} (k : String) : List (String × β) → List (String × β)
  | [] => []
  | p :: rest => if p.1 = k then eraseKey k rest else p :: eraseKey k rest

/-- Insert-or-overwrite a binding (the map semantics of
`sync.Map.Store`). -/
def storeKey {β : Type} (k : String) (v : β) (l : List (String × β)) :
    List (String × β) :=
  (k, v) :: eraseKey k l

/-- Modelled from the spec: one entry of the optimistic object cache — an
authoritative version (mirrored from change notifications) and optionally
a newer assumed version. The best-known ("latest") version is the assumed
one when present, else the authoritative one. -/
structure ObjInfo where
  apiObj : CacheObj
  assumed : Option CacheObj
deriving DecidableEq

/-- Modelled from the spec: the best-known version of an entry (assumed if
present, else authoritative). -/
def ObjInfo.latestObj (i : ObjInfo) : CacheObj :=
  i.assumed.getD i.apiObj

/-- Modelled from the spec: the generic string-keyed optimistic object
cache (`assumecache.AssumeCache`, external collaborator; its source is not
part of this excerpt). -/
structure AssumeCache where
  entries : List (String × ObjInfo)
deriving DecidableEq

/-- Modelled from the spec: `AssumeCache.Get` — read of the best-known
version; not-found error when the key is absent. -/
def AssumeCache.Get (c : AssumeCache) (key : String) :
    Except TrackerError CacheObj :=
  match lookupKey key c.entries with
  | none => .error (.notFound key)
  | some info => .ok info.latestObj

/-- Modelled from the spec: `AssumeCache.GetAPIObj` — read of the
authoritative version only; same not-found condition. -/
def AssumeCache.GetAPIObj (c : AssumeCache) (key : String) :
    Except TrackerError CacheObj :=
  match lookupKey key c.entries with
  | none => .error (.notFound key)
  | some info => .ok info.apiObj

/-- Modelled from the spec: `AssumeCache.List` — all cached objects
(best-known version per key; the tracker always passes a nil selector). -/
def AssumeCache.ListObjs (c : AssumeCache) : List CacheObj :=
  c.entries.map (fun p => p.2.latestObj)

/-- Replace the info stored for a key, leaving other entries alone. -/
def setKey (k : String) (v : ObjInfo) :
    List (String × ObjInfo) → List (String × ObjInfo)
  | [] => []
  | p :: rest => if p.1 = k then (k, v) :: setKey k v rest
                 else p :: setKey k v rest

/-- Modelled from the spec: `AssumeCache.Assume` — insertion of an assumed
version, validated as newer than the best-known version by the supplied
ordering; fails with not-found when the key is absent, and with a
stale-write rejection when the object is not newer. -/
def AssumeCache.Assume (c : AssumeCache) (obj : CacheObj) :
    Except TrackerError AssumeCache :=
  match lookupKey obj.objKey c.entries with
  | none => .error (.notFound obj.objKey)
  | some info =>
      if info.latestObj.version < obj.version then
        .ok ⟨setKey obj.objKey ⟨info.apiObj, some obj⟩ c.entries⟩
      else
        .error (.staleAssume obj.objKey)

/-- Discard the assumed version of the entries at a key. -/
def restoreEntries (k : String) :
    List (String × ObjInfo) → List (String × ObjInfo)
  | [] => []
  | p :: rest => if p.1 = k then (p.1, ⟨p.2.apiObj, none⟩) :: restoreEntries k rest
                 else p :: restoreEntries k rest

/-- Modelled from the spec: `AssumeCache.Restore` — discarding of an
assumed version back to authoritative; no-op when no assumed version
exists. -/
def AssumeCache.Restore (c : AssumeCache) (key : String) : AssumeCache :=
  ⟨restoreEntries key c.entries⟩

/-- The tracker state (`claimTracker` in dra_manager.go): the claims
assume cache and the in-flight allocation ledger (`inFlightAllocations`,
a `sync.Map` from claim UID to untyped object — only claims are ever
stored, which claim C10 is about). -/
structure claimTracker where
  cache : AssumeCache
  inFlightAllocations : List (String × CacheObj)
deriving DecidableEq

/-- `claimTracker.ClaimHasPendingAllocation`: existence check against the
ledger. -/
def claimTracker.ClaimHasPendingAllocation (t : claimTracker)
    (claimUid : String) : Bool :=
  (lookupKey claimUid t.inFlightAllocations).isSome

/-- `claimTracker.SignalClaimPendingAllocation`: insert/overwrite the
ledger entry for the UID with the (claim) object. -/
def claimTracker.SignalClaimPendingAllocation (t : claimTracker)
    (claimUid : String) (allocatedClaim : ResourceClaim) : claimTracker :=
  { t with inFlightAllocations :=
      storeKey claimUid (CacheObj.claim allocatedClaim) t.inFlightAllocations }

/-- `claimTracker.RemoveClaimPendingAllocation`: atomically remove the
ledger entry and report whether one existed. -/
def claimTracker.RemoveClaimPendingAllocation (t : claimTracker)
    (claimUid : String) : Bool × claimTracker :=
  ((lookupKey claimUid t.inFlightAllocations).isSome,
   { t with inFlightAllocations := eraseKey claimUid t.inFlightAllocations })

/-- `claimTracker.Get`: cache read of the best-known version at
`namespace/name`, then the runtime type check. -/
def claimTracker.Get (t : claimTracker) (ns claimName : String) :
    Except TrackerError ResourceClaim :=
  match t.cache.Get (ns ++ "/" ++ claimName) with
  | .error e => .error e
  | .ok obj =>
      match obj with
      | .claim c => .ok c
      | .other kind _ _ => .error (.typeMismatch kind ns claimName)

/-- `claimTracker.GetOriginal`: cache read of the authoritative version
at `namespace/name`, then the runtime type check. -/
def claimTracker.GetOriginal (t : claimTracker) (ns claimName : String) :
    Except TrackerError ResourceClaim :=
  match t.cache.GetAPIObj (ns ++ "/" ++ claimName) with
  | .error e => .error e
  | .ok obj =>
      match obj with
      | .claim c => .ok c
      | .other kind _ _ => .error (.typeMismatch kind ns claimName)

/-- The loop body of `claimTracker.List`: keep the objects whose runtime
type check succeeds, silently skipping the rest. -/
def claimsOf : List CacheObj → List ResourceClaim
  | [] => []
  | obj :: rest =>
      match obj with
      | .claim c => c :: claimsOf rest
      | .other _ _ _ => claimsOf rest

/-- A list of claims, named at top level so that signatures inside the
`claimTracker` namespace are not shadowed by `claimTracker.List`. -/
abbrev ClaimList := List ResourceClaim

/-- `claimTracker.List`: list the cache and keep the claims; the error
return is always nil in the source. -/
def claimTracker.List (t : claimTracker) :
    Except TrackerError ClaimList :=
  .ok (claimsOf t.cache.ListObjs)

/-- The loop of `claimTracker.ListAllAllocated`: per cached claim, look
the ledger up by UID; on a hit the ledger's object replaces the cached
claim via an unchecked cast (`obj.(*resourceapi.ResourceClaim)` — `none`
models the panic when the stored object is not a claim); keep the
effective claims whose `Status.Allocation` is non-nil. -/
def listAllAllocatedLoop (ledger : List (String × CacheObj)) :
    List ResourceClaim → Option (List ResourceClaim)
  | [] => some []
  | origClaim :: rest =>
      match lookupKey origClaim.uid ledger with
      | none =>
          match listAllAllocatedLoop ledger rest with
          | none => none
          | some l =>
              some (if origClaim.allocation.isSome then origClaim :: l else l)
      | some (.claim c) =>
          match listAllAllocatedLoop ledger rest with
          | none => none
          | some l => some (if c.allocation.isSome then c :: l else l)
      | some (.other _ _ _) => none

/-- `claimTracker.ListAllAllocated`: compute `List()`, propagate its
error, then run the ledger-override loop. The outer `Option` is `none`
exactly when the unchecked cast of a ledger value panics. -/
def claimTracker.ListAllAllocated (t : claimTracker) :
    Option (Except TrackerError ClaimList) :=
  match t.List with
  | .error e => some (.error e)
  | .ok claims => (listAllAllocatedLoop t.inFlightAllocations claims).map .ok

/-- `claimTracker.AssumeClaimAfterApiCall`: insert the claim as the
assumed version, subject to the cache's newer-than validation. -/
def claimTracker.AssumeClaimAfterApiCall (t : claimTracker)
    (claim : ResourceClaim) : Except TrackerError claimTracker :=
  match t.cache.Assume (CacheObj.claim claim) with
  | .error e => .error e
  | .ok cache => .ok { t with cache := cache }

/-- `claimTracker.AssumedClaimRestore`: discard any assumed version for
`namespace/name`. -/
def claimTracker.AssumedClaimRestore (t : claimTracker)
    (ns claimName : String) : claimTracker :=
  { t with cache := t.cache.Restore (ns ++ "/" ++ claimName) }

/-! ### Association-list lemmas -/

theorem lookupKey_eraseKey_self {β : Type} (k : String)
    (l : List (String × β)) : lookupKey k (eraseKey k l) = none := by
  induction l with
  | nil => rfl
  | cons p rest ih =>
      by_cases h : p.1 = k <;> simp [eraseKey, lookupKey, h, ih]

theorem lookupKey_eraseKey_ne {β : Type} {k k' : String} (h : k ≠ k')
    (l : List (String × β)) : lookupKey k (eraseKey k' l) = lookupKey k l := by
  have h' : ¬ k' = k := fun hk => h hk.symm
  induction l with
  | nil => rfl
  | cons p rest ih =>
      by_cases h1 : p.1 = k'
      · have h2 : ¬ p.1 = k := fun hk => h (hk.symm.trans h1)
        simp [eraseKey, lookupKey, h1, h2, h', ih]
      · by_cases h2 : p.1 = k <;> simp [eraseKey, lookupKey, h1, h2, h, h', ih]

theorem mem_eraseKey {β : Type} {k : String} {p : String × β}
    {l : List (String × β)} (h : p ∈ eraseKey k l) : p ∈ l := by
  induction l with
  | nil => simp [eraseKey] at h
  | cons q rest ih =>
      by_cases h1 : q.1 = k
      · simp only [eraseKey, if_pos h1] at h
        exact List.mem_cons_of_mem _ (ih h)
      · simp only [eraseKey, if_neg h1, List.mem_cons] at h
        rcases h with h | h
        · exact h ▸ List.mem_cons_self _ _
        · exact List.mem_cons_of_mem _ (ih h)

theorem lookupKey_storeKey_self {β : Type} (k : String) (v : β)
    (l : List (String × β)) : lookupKey k (storeKey k v l) = some v := by
  simp [storeKey, lookupKey]

theorem lookupKey_storeKey_ne {β : Type} {k k' : String} (h : k ≠ k')
    (v : β) (l : List (String × β)) :
    lookupKey k (storeKey k' v l) = lookupKey k l := by
  simp only [storeKey, lookupKey]
  rw [if_neg (by intro hk; exact h hk.symm)]
  exact lookupKey_eraseKey_ne h l

theorem lookupKey_mem {β : Type} {k : String} {v : β}
    {l : List (String × β)} (h : lookupKey k l = some v) : (k, v) ∈ l := by
  induction l with
  | nil => simp [lookupKey] at h
  | cons p rest ih =>
      by_cases h1 : p.1 = k
      · simp only [lookupKey, if_pos h1, Option.some.injEq] at h
        have hkv : (k, v) = p := by
          cases p
          simp only at h1 h
          simp [h1, h]
        exact List.mem_cons.mpr (Or.inl hkv)
      · simp only [lookupKey, if_neg h1] at h
        exact List.mem_cons_of_mem _ (ih h)

theorem mem_claimsOf {c : ResourceClaim} {objs : List CacheObj} :
    c ∈ claimsOf objs ↔ CacheObj.claim c ∈ objs := by
  induction objs with
  | nil => simp [claimsOf]
  | cons obj rest ih =>
      cases obj with
      | claim c' => simp [claimsOf, ih]
      | other k k2 v => simp [claimsOf, ih]

theorem lookupKey_setKey_of_some {k : String} {v i : ObjInfo}
    {l : List (String × ObjInfo)} (h : lookupKey k l = some i) :
    lookupKey k (setKey k v l) = some v := by
  induction l with
  | nil => simp [lookupKey] at h
  | cons p rest ih =>
      by_cases h1 : p.1 = k
      · simp [setKey, lookupKey, h1]
      · simp only [lookupKey, if_neg h1] at h
        simp [setKey, lookupKey, h1, ih h]

theorem lookupKey_restoreEntries_self (k : String)
    (l : List (String × ObjInfo)) :
    lookupKey k (restoreEntries k l) =
      (lookupKey k l).map (fun i => ⟨i.apiObj, none⟩) := by
  induction l with
  | nil => rfl
  | cons p rest ih =>
      by_cases h1 : p.1 = k <;> simp [restoreEntries, lookupKey, h1, ih]

/-! ### Spec-side view of `ListAllAllocated` and the ledger typing
invariant -/

/-- The ledger is well-typed: every stored value is a claim object. Claim
C10 proves this holds in every reachable state. -/
def ledgerWellTyped (t : claimTracker) : Prop :=
  ∀ p ∈ t.inFlightAllocations, p.2.isClaim = true

/-- The claim stored in the ledger for a UID, when the entry exists and
is a claim. -/
def ledgerClaim (ledger : List (String × CacheObj)) (uid : String) :
    Option ResourceClaim :=
  match lookupKey uid ledger with
  | some (.claim c) => some c
  | _ => none

/-- The spec's effective version of a cached claim: the ledger's version
when an entry exists for the claim's UID ("ledger wins"), else the cached
version. -/
def specEffective (ledger : List (String × CacheObj)) (c : ResourceClaim) :
    ResourceClaim :=
  (ledgerClaim ledger c.uid).getD c

/-- The claims `List()` returns: the cached entries (best-known version
per key) that are claims. -/
def cachedClaims (t : claimTracker) : List ResourceClaim :=
  claimsOf t.cache.ListObjs

/-- The specification's description of `ListAllAllocated`: take the
claims of `List()`, substitute the ledger's version per UID, keep those
with a non-empty allocation record. -/
def specListAllAllocated (t : claimTracker) : List ResourceClaim :=
  ((cachedClaims t).map (specEffective t.inFlightAllocations)).filter
    (fun c => c.allocation.isSome)

theorem listAllAllocatedLoop_spec (ledger : List (String × CacheObj))
    (hwt : ∀ p ∈ ledger, p.2.isClaim = true) (claims : List ResourceClaim) :
    listAllAllocatedLoop ledger claims =
      some ((claims.map (specEffective ledger)).filter
        (fun c => c.allocation.isSome)) := by
  induction claims with
  | nil => rfl
  | cons c rest ih =>
      cases hl : lookupKey c.uid ledger with
      | none =>
          have heff : specEffective ledger c = c := by
            simp [specEffective, ledgerClaim, hl]
          simp [listAllAllocatedLoop, hl, ih, heff, List.filter_cons]
      | some v =>
          have hv := hwt (c.uid, v) (lookupKey_mem hl)
          cases v with
          | claim c2 =>
              have heff : specEffective ledger c = c2 := by
                simp [specEffective, ledgerClaim, hl]
              simp [listAllAllocatedLoop, hl, ih, heff, List.filter_cons]
          | other k k2 ver => simp [CacheObj.isClaim] at hv

theorem ListAllAllocated_eq_spec {t : claimTracker}
    (hwt : ledgerWellTyped t) :
    t.ListAllAllocated = some (.ok (specListAllAllocated t)) := by
  unfold claimTracker.ListAllAllocated claimTracker.List
  simp [listAllAllocatedLoop_spec t.inFlightAllocations hwt,
    specListAllAllocated, cachedClaims]

theorem mem_specListAllAllocated {t : claimTracker} {e : ResourceClaim} :
    e ∈ specListAllAllocated t ↔
      (∃ d ∈ cachedClaims t, specEffective t.inFlightAllocations d = e) ∧
        e.allocation.isSome = true := by
  simp only [specListAllAllocated, List.mem_filter, List.mem_map]

theorem eraseKey_idem {β : Type} (k : String) (l : List (String × β)) :
    eraseKey k (eraseKey k l) = eraseKey k l := by
  induction l with
  | nil => rfl
  | cons p rest ih =>
      by_cases h : p.1 = k <;> simp [eraseKey, h, ih]

/-- C7: `RemoveClaimPendingAllocation(uid)` removes the ledger entry for
`uid` and returns `found = true` exactly when an entry existed;
immediately afterwards `ClaimHasPendingAllocation(uid)` is false, and a
second `RemoveClaimPendingAllocation(uid)` returns `found = false` and
leaves the state unchanged (removal is idempotent). -/
theorem C7_remove_clears_ledger (t : claimTracker) (uid : String) :
    (t.RemoveClaimPendingAllocation uid).1 =
      t.ClaimHasPendingAllocation uid ∧
    lookupKey uid
      (t.RemoveClaimPendingAllocation uid).2.inFlightAllocations = none ∧
    (t.RemoveClaimPendingAllocation uid).2.ClaimHasPendingAllocation uid
      = false ∧
    ((t.RemoveClaimPendingAllocation uid).2.RemoveClaimPendingAllocation
      uid).1 = false ∧
    ((t.RemoveClaimPendingAllocation uid).2.RemoveClaimPendingAllocation
      uid).2 = (t.RemoveClaimPendingAllocation uid).2 := by
  refine ⟨rfl, lookupKey_eraseKey_self uid _, ?_, ?_, ?_⟩
  · simp [claimTracker.ClaimHasPendingAllocation,
      claimTracker.RemoveClaimPendingAllocation, lookupKey_eraseKey_self]
  · simp [claimTracker.RemoveClaimPendingAllocation,
      lookupKey_eraseKey_self]
  · simp [claimTracker.RemoveClaimPendingAllocation, eraseKey_idem]

/-- C8: `SignalClaimPendingAllocation(uid, c1)` always succeeds (it is a
total operation) and makes `ClaimHasPendingAllocation(uid)` true; a
subsequent `SignalClaimPendingAllocation(uid, c2)` overwrites the entry,
so the ledger's value for `uid` — as observed through the per-UID
override that `ListAllAllocated` applies — is `c2` (last write wins). -/
theorem C8_signal_last_write_wins (t : claimTracker) (uid : String)
    (c1 c2 : ResourceClaim) :
    (t.SignalClaimPendingAllocation uid c1).ClaimHasPendingAllocation uid
      = true ∧
    lookupKey uid ((t.SignalClaimPendingAllocation uid
        c1).SignalClaimPendingAllocation uid c2).inFlightAllocations
      = some (CacheObj.claim c2) ∧
    ∀ d : ResourceClaim, d.uid = uid →
      specEffective ((t.SignalClaimPendingAllocation uid
          c1).SignalClaimPendingAllocation uid c2).inFlightAllocations d
        = c2 := by
  refine ⟨?_, ?_, ?_⟩
  · simp [claimTracker.SignalClaimPendingAllocation,
      claimTracker.ClaimHasPendingAllocation, lookupKey_storeKey_self]
  · simp [claimTracker.SignalClaimPendingAllocation, lookupKey_storeKey_self]
  · intro d hd
    simp [specEffective, ledgerClaim, hd,
      claimTracker.SignalClaimPendingAllocation, lookupKey_storeKey_self]

/-! ### Sample states used to instantiate the theorems -/

/-- A cached claim with no allocation record. -/
def claimA : ResourceClaim := ⟨"ns1", "claim-a", "uid-a", 1, none⟩

/-- A newer version of `claimA` carrying an allocation record. -/
def claimB : ResourceClaim := ⟨"ns1", "claim-a", "uid-a", 2, some "dev-0"⟩

/-- A claim in another namespace, with an allocation record. -/
def claimX : ResourceClaim := ⟨"ns2", "claim-x", "uid-x", 1, some "gpu-1"⟩

/-- A tracker whose cache authoritatively holds `claimA` and whose ledger
is empty. -/
def trackerA : claimTracker :=
  ⟨⟨[("ns1/claim-a", ⟨CacheObj.claim claimA, none⟩)]⟩, []⟩

/-- A tracker whose cache holds `claimA` plus an entry of a different
kind. -/
def trackerP : claimTracker :=
  ⟨⟨[("ns1/claim-a", ⟨CacheObj.claim claimA, none⟩),
     ("ns1/pod-p", ⟨CacheObj.other "*v1.Pod" "ns1/pod-p" 1, none⟩)]⟩, []⟩

/-- Witness for C8 at concrete inputs: after signaling `claimA` then
`claimX` for UID `uid-x`, the override observed for a claim with that UID
is `claimX`. -/
theorem C8_signal_last_write_wins_witness :
    claimX.uid = "uid-x" ∧
    specEffective ((trackerA.SignalClaimPendingAllocation "uid-x"
        claimA).SignalClaimPendingAllocation "uid-x"
        claimX).inFlightAllocations claimX = claimX :=
  ⟨by decide,
   (C8_signal_last_write_wins trackerA "uid-x" claimA claimX).2.2 claimX
     (by decide)⟩

/-- C5: `Get` returns the assumed version if present, else the
authoritative one; it fails with a not-found error exactly when the key
is absent from the cache, and with a type-mismatch error reporting the
observed kind exactly when the best-known object at the key is of another
kind. `GetOriginal` reads only the authoritative version, with the same
two error conditions. -/
theorem C5_get_and_getOriginal_contract (t : claimTracker)
    (ns claimName : String) :
    (t.Get ns claimName = .error (.notFound (ns ++ "/" ++ claimName)) ↔
      lookupKey (ns ++ "/" ++ claimName) t.cache.entries = none) ∧
    (∀ kind, t.Get ns claimName
        = .error (.typeMismatch kind ns claimName) ↔
      ∃ info k v, lookupKey (ns ++ "/" ++ claimName) t.cache.entries
        = some info ∧ info.assumed.getD info.apiObj = .other kind k v) ∧
    (∀ c, t.Get ns claimName = .ok c ↔
      ∃ info, lookupKey (ns ++ "/" ++ claimName) t.cache.entries
        = some info ∧ info.assumed.getD info.apiObj = .claim c) ∧
    (t.GetOriginal ns claimName
        = .error (.notFound (ns ++ "/" ++ claimName)) ↔
      lookupKey (ns ++ "/" ++ claimName) t.cache.entries = none) ∧
    (∀ kind, t.GetOriginal ns claimName
        = .error (.typeMismatch kind ns claimName) ↔
      ∃ info k v, lookupKey (ns ++ "/" ++ claimName) t.cache.entries
        = some info ∧ info.apiObj = .other kind k v) ∧
    (∀ c, t.GetOriginal ns claimName = .ok c ↔
      ∃ info, lookupKey (ns ++ "/" ++ claimName) t.cache.entries
        = some info ∧ info.apiObj = .claim c) := by
  refine ⟨?_, ?_, ?_, ?_, ?_, ?_⟩
  · cases hl : lookupKey (ns ++ "/" ++ claimName) t.cache.entries with
    | none => simp [claimTracker.Get, AssumeCache.Get, hl]
    | some info =>
        cases hobj : info.latestObj with
        | claim c =>
            simp [claimTracker.Get, AssumeCache.Get, hl, hobj]
        | other k k2 v =>
            simp [claimTracker.Get, AssumeCache.Get, hl, hobj]
  · intro kind
    cases hl : lookupKey (ns ++ "/" ++ claimName) t.cache.entries with
    | none => simp [claimTracker.Get, AssumeCache.Get, hl]
    | some info =>
        cases hobj : info.latestObj with
        | claim c =>
            simp [claimTracker.Get, AssumeCache.Get, hl, hobj,
              ObjInfo.latestObj] at *
            simp [hobj]
        | other k k2 v =>
            simp [claimTracker.Get, AssumeCache.Get, hl, hobj,
              ObjInfo.latestObj] at *
            simp [hobj]
  · intro c
    cases hl : lookupKey (ns ++ "/" ++ claimName) t.cache.entries with
    | none => simp [claimTracker.Get, AssumeCache.Get, hl]
    | some info =>
        cases hobj : info.latestObj with
        | claim c' =>
            simp [claimTracker.Get, AssumeCache.Get, hl, hobj,
              ObjInfo.latestObj] at *
            simp [hobj]
        | other k k2 v =>
            simp [claimTracker.Get, AssumeCache.Get, hl, hobj,
              ObjInfo.latestObj] at *
            simp [hobj]
  · cases hl : lookupKey (ns ++ "/" ++ claimName) t.cache.entries with
    | none => simp [claimTracker.GetOriginal, AssumeCache.GetAPIObj, hl]
    | some info =>
        cases hobj : info.apiObj with
        | claim c =>
            simp [claimTracker.GetOriginal, AssumeCache.GetAPIObj, hl, hobj]
        | other k k2 v =>
            simp [claimTracker.GetOriginal, AssumeCache.GetAPIObj, hl, hobj]
  · intro kind
    cases hl : lookupKey (ns ++ "/" ++ claimName) t.cache.entries with
    | none => simp [claimTracker.GetOriginal, AssumeCache.GetAPIObj, hl]
    | some info =>
        cases hobj : info.apiObj with
        | claim c =>
            simp [claimTracker.GetOriginal, AssumeCache.GetAPIObj, hl, hobj]
        | other k k2 v =>
            simp [claimTracker.GetOriginal, AssumeCache.GetAPIObj, hl, hobj]
  · intro c
    cases hl : lookupKey (ns ++ "/" ++ claimName) t.cache.entries with
    | none => simp [claimTracker.GetOriginal, AssumeCache.GetAPIObj, hl]
    | some info =>
        cases hobj : info.apiObj with
        | claim c' =>
            simp [claimTracker.GetOriginal, AssumeCache.GetAPIObj, hl, hobj]
        | other k k2 v =>
            simp [claimTracker.GetOriginal, AssumeCache.GetAPIObj, hl, hobj]

/-- C6: `List` never errors because of an individual entry of the wrong
kind: it always returns a result, entries that are not claims are
silently skipped, and the result contains exactly the cached
(assumed-or-authoritative per key) entries that are claims. -/
theorem C6_list_skips_wrong_kinds (t : claimTracker) :
    (∃ l, t.List = .ok l) ∧
    ∀ l, t.List = .ok l →
      ∀ c : ResourceClaim, c ∈ l ↔ CacheObj.claim c ∈ t.cache.ListObjs := by
  refine ⟨⟨claimsOf t.cache.ListObjs, rfl⟩, ?_⟩
  intro l hl c
  simp only [claimTracker.List, Except.ok.injEq] at hl
  rw [← hl]
  exact mem_claimsOf

/-- Witness for C6 at a cache polluted with a non-claim entry: `List`
returns exactly the claim, skipping the other object. -/
theorem C6_list_skips_wrong_kinds_witness :
    trackerP.List = .ok [claimA] ∧
    (claimA ∈ [claimA] ↔ CacheObj.claim claimA ∈ trackerP.cache.ListObjs) :=
  ⟨rfl, (C6_list_skips_wrong_kinds trackerP).2 [claimA] rfl claimA⟩

/-- A tracker whose cache holds `claimA` (no allocation) and whose ledger
holds `claimB` (same UID, with an allocation) — the in-flight override
situation. -/
def trackerB : claimTracker :=
  ⟨⟨[("ns1/claim-a", ⟨CacheObj.claim claimA, none⟩)]⟩,
   [("uid-a", CacheObj.claim claimB)]⟩

/-- C2: under the ledger typing invariant (established for all reachable
states by C10), `ListAllAllocated` computes exactly this function of the
state: take the claims of `List()`; substitute the ledger's claim per UID
when an entry exists; keep exactly those whose allocation record is
non-empty. For a cached claim with no ledger entry for its UID,
membership in the result is equivalent to the cached claim having a
non-empty allocation record. -/
theorem C2_listAllAllocated_computes_spec (t : claimTracker)
    (hwt : ledgerWellTyped t) :
    t.ListAllAllocated = some (.ok (specListAllAllocated t)) ∧
    ∀ c ∈ cachedClaims t,
      lookupKey c.uid t.inFlightAllocations = none →
      (c ∈ specListAllAllocated t ↔ c.allocation.isSome = true) := by
  refine ⟨ListAllAllocated_eq_spec hwt, ?_⟩
  intro c hc hn
  constructor
  · intro hm
    exact (mem_specListAllAllocated.mp hm).2
  · intro ha
    refine mem_specListAllAllocated.mpr ⟨⟨c, hc, ?_⟩, ha⟩
    simp [specEffective, ledgerClaim, hn]

/-- Witness for C2: on a concrete state with a ledger override, the
result is exactly the spec-side function of the state. -/
theorem C2_listAllAllocated_computes_spec_witness :
    ledgerWellTyped trackerB ∧
    trackerB.ListAllAllocated = some (.ok (specListAllAllocated trackerB)) :=
  ⟨by intro p hp; simp only [trackerB, List.mem_singleton] at hp; subst hp; rfl,
   (C2_listAllAllocated_computes_spec trackerB
     (by intro p hp; simp only [trackerB, List.mem_singleton] at hp;
         subst hp; rfl)).1⟩

/-- A tracker with an empty cache but a ledger entry carrying an
allocated claim. -/
def trackerL : claimTracker :=
  ⟨⟨[]⟩, [("uid-x", CacheObj.claim claimX)]⟩

/-- Counterexample to C1 as stated: in `trackerL` the ledger records a
non-empty allocation for `claimX`, yet `ListAllAllocated` returns the
empty list — a claim absent from the cache is not reported even though
its ledger entry has an allocation. -/
theorem C1_counterexample :
    claimX.allocation.isSome = true ∧
    lookupKey claimX.uid trackerL.inFlightAllocations
      = some (CacheObj.claim claimX) ∧
    trackerL.ListAllAllocated = some (.ok []) :=
  ⟨rfl, by decide, rfl⟩

/-- C1 (amended): under the ledger typing invariant, every claim reported
by `ListAllAllocated` has a non-empty allocation record and is the
effective (ledger-overriding) version of some cached claim — so a claim
for which neither ledger nor cache records an allocation is never
reported; and every cached claim whose effective version has a non-empty
allocation is reported (in its effective version). Ledger entries whose
UID matches no cached claim are not reported, and a cached allocation
suppressed by a ledger override with no allocation is not reported. -/
theorem C1_amended_allocated_report (t : claimTracker)
    (hwt : ledgerWellTyped t) (l : List ResourceClaim)
    (hl : t.ListAllAllocated = some (.ok l)) :
    (∀ e ∈ l, e.allocation.isSome = true) ∧
    (∀ e ∈ l, ∃ d ∈ cachedClaims t,
      specEffective t.inFlightAllocations d = e) ∧
    (∀ d ∈ cachedClaims t,
      (specEffective t.inFlightAllocations d).allocation.isSome = true →
      specEffective t.inFlightAllocations d ∈ l) := by
  rw [ListAllAllocated_eq_spec hwt] at hl
  simp only [Option.some.injEq, Except.ok.injEq] at hl
  subst hl
  refine ⟨?_, ?_, ?_⟩
  · intro e he
    exact (mem_specListAllAllocated.mp he).2
  · intro e he
    exact (mem_specListAllAllocated.mp he).1
  · intro d hd ha
    exact mem_specListAllAllocated.mpr ⟨⟨d, hd, rfl⟩, ha⟩

/-- Witness for the amended C1 on `trackerB`: the report is `[claimB]`,
every reported claim is allocated, and the cached claim's effective
version is reported. -/
theorem C1_amended_allocated_report_witness :
    ledgerWellTyped trackerB ∧
    trackerB.ListAllAllocated = some (.ok [claimB]) ∧
    (∀ e ∈ [claimB], e.allocation.isSome = true) :=
  ⟨by intro p hp; simp only [trackerB, List.mem_singleton] at hp; subst hp; rfl,
   rfl,
   (C1_amended_allocated_report trackerB
     (by intro p hp; simp only [trackerB, List.mem_singleton] at hp;
         subst hp; rfl)
     [claimB] rfl).1⟩

/-- The empty tracker. -/
def trackerE : claimTracker := ⟨⟨[]⟩, []⟩

/-- Counterexample to C3 as stated: signaling a pending allocation for
`claimX` (which carries an allocation record) on a tracker whose cache is
empty does not make `claimX` appear in `ListAllAllocated` — the result is
still empty, because the iteration is driven by the cache. -/
theorem C3_counterexample :
    claimX.allocation.isSome = true ∧
    (trackerE.SignalClaimPendingAllocation "uid-x"
      claimX).ListAllAllocated = some (.ok []) :=
  ⟨rfl, rfl⟩

/-- C3 (amended): after `SignalClaimPendingAllocation(uid, c)` where `c`
has a non-empty allocation record, `c` appears in `ListAllAllocated` —
even when the cache's stored version for the key has no allocation
record — provided the cache lists some claim whose UID is `uid` (and the
ledger satisfies the typing invariant). -/
theorem C3_amended_ledger_precedence (t : claimTracker) (uid : String)
    (c d : ResourceClaim) (hwt : ledgerWellTyped t)
    (hd : d ∈ cachedClaims t) (huid : d.uid = uid)
    (ha : c.allocation.isSome = true) :
    ∃ l, (t.SignalClaimPendingAllocation uid c).ListAllAllocated
      = some (.ok l) ∧ c ∈ l := by
  have hwt' : ledgerWellTyped (t.SignalClaimPendingAllocation uid c) := by
    intro p hp
    simp only [claimTracker.SignalClaimPendingAllocation, storeKey,
      List.mem_cons] at hp
    rcases hp with h | h
    · subst h; rfl
    · exact hwt p (mem_eraseKey h)
  refine ⟨specListAllAllocated (t.SignalClaimPendingAllocation uid c),
    ListAllAllocated_eq_spec hwt', ?_⟩
  refine mem_specListAllAllocated.mpr ⟨⟨d, hd, ?_⟩, ha⟩
  simp [specEffective, ledgerClaim, huid,
    claimTracker.SignalClaimPendingAllocation, lookupKey_storeKey_self]

/-- Witness for the amended C3: the cache stores `claimA` (no
allocation); after signaling `claimB` for its UID, `claimB` is
reported. -/
theorem C3_amended_ledger_precedence_witness :
    claimA ∈ cachedClaims trackerA ∧ claimA.uid = "uid-a" ∧
    claimB.allocation.isSome = true ∧
    ∃ l, (trackerA.SignalClaimPendingAllocation "uid-a"
      claimB).ListAllAllocated = some (.ok l) ∧ claimB ∈ l :=
  ⟨by decide, by decide, by decide,
   C3_amended_ledger_precedence trackerA "uid-a" claimB claimA
     (by intro p hp; simp [trackerA] at hp) (by decide) (by decide)
     (by decide)⟩

/-- A tracker whose cache holds `claimA` and whose ledger has an entry
under a UID matching no cached claim. -/
def trackerZ : claimTracker :=
  ⟨⟨[("ns1/claim-a", ⟨CacheObj.claim claimA, none⟩)]⟩,
   [("uid-z", CacheObj.claim claimX)]⟩

/-- C9: every claim reported by `ListAllAllocated` is the (per-UID
ledger-substituted) effective version of some claim of `List()`; and a
ledger entry whose UID matches no cached claim never influences the
result — erasing it leaves the result unchanged, no matter its
allocation record. -/
theorem C9_result_subset_of_cache (t : claimTracker)
    (hwt : ledgerWellTyped t) (l : List ResourceClaim)
    (hl : t.ListAllAllocated = some (.ok l)) :
    (∀ e ∈ l, ∃ d ∈ cachedClaims t,
      specEffective t.inFlightAllocations d = e) ∧
    (∀ uid, (∀ d ∈ cachedClaims t, d.uid ≠ uid) →
      (claimTracker.mk t.cache
        (eraseKey uid t.inFlightAllocations)).ListAllAllocated
        = some (.ok l)) := by
  rw [ListAllAllocated_eq_spec hwt] at hl
  simp only [Option.some.injEq, Except.ok.injEq] at hl
  constructor
  · intro e he
    rw [← hl] at he
    exact (mem_specListAllAllocated.mp he).1
  · intro uid hud
    have hwt2 : ledgerWellTyped
        (claimTracker.mk t.cache (eraseKey uid t.inFlightAllocations)) :=
      fun p hp => hwt p (mem_eraseKey hp)
    rw [ListAllAllocated_eq_spec hwt2]
    have hspec : specListAllAllocated
        (claimTracker.mk t.cache (eraseKey uid t.inFlightAllocations))
        = specListAllAllocated t := by
      unfold specListAllAllocated cachedClaims
      have hmap : ∀ d ∈ claimsOf (AssumeCache.ListObjs t.cache),
          specEffective (eraseKey uid t.inFlightAllocations) d
            = specEffective t.inFlightAllocations d := by
        intro d hd
        unfold specEffective ledgerClaim
        rw [lookupKey_eraseKey_ne (hud d hd)]
      rw [List.map_congr_left hmap]
    rw [hspec, hl]

/-- Witness for C9: in `trackerZ` the ledger entry under `uid-z` matches
no cached claim; erasing it leaves the (empty) report unchanged. -/
theorem C9_result_subset_of_cache_witness :
    ledgerWellTyped trackerZ ∧
    trackerZ.ListAllAllocated = some (.ok []) ∧
    (claimTracker.mk trackerZ.cache
      (eraseKey "uid-z" trackerZ.inFlightAllocations)).ListAllAllocated
      = some (.ok []) :=
  ⟨by intro p hp; simp only [trackerZ, List.mem_singleton] at hp;
      subst hp; rfl,
   rfl,
   (C9_result_subset_of_cache trackerZ
     (by intro p hp; simp only [trackerZ, List.mem_singleton] at hp;
         subst hp; rfl)
     [] rfl).2 "uid-z" (by decide)⟩

/-- C4: if the cache has an entry at `B`'s key whose authoritative
version is the claim `A`, and the cache's ordering accepts `B` as newer
than the best-known version there, then `AssumeClaimAfterApiCall(B)`
succeeds, after which `Get` returns `B` while `GetOriginal` still
returns `A`; and after a subsequent `AssumedClaimRestore` for that key,
`Get` returns `A` again. -/
theorem C4_assume_restore_round_trip (t : claimTracker)
    (A B : ResourceClaim) (info : ObjInfo)
    (hk : lookupKey (B.ns ++ "/" ++ B.name) t.cache.entries = some info)
    (hapi : info.apiObj = .claim A)
    (hnew : info.latestObj.version < B.resourceVersion) :
    ∃ t', t.AssumeClaimAfterApiCall B = .ok t' ∧
      t'.Get B.ns B.name = .ok B ∧
      t'.GetOriginal B.ns B.name = .ok A ∧
      (t'.AssumedClaimRestore B.ns B.name).Get B.ns B.name = .ok A := by
  have hkey : (CacheObj.claim B).objKey = B.ns ++ "/" ++ B.name := rfl
  have hver : (CacheObj.claim B).version = B.resourceVersion := rfl
  obtain ⟨api, asm⟩ := info
  change api = CacheObj.claim A at hapi
  subst hapi
  refine ⟨{ t with cache := ⟨setKey (B.ns ++ "/" ++ B.name)
    ⟨CacheObj.claim A, some (.claim B)⟩ t.cache.entries⟩ }, ?_, ?_, ?_, ?_⟩
  · unfold claimTracker.AssumeClaimAfterApiCall AssumeCache.Assume
    rw [hkey, hver, hk]
    simp [hnew]
  · have hset : lookupKey (B.ns ++ "/" ++ B.name)
        (setKey (B.ns ++ "/" ++ B.name)
          ⟨CacheObj.claim A, some (.claim B)⟩ t.cache.entries)
        = some ⟨CacheObj.claim A, some (.claim B)⟩ :=
      lookupKey_setKey_of_some hk
    simp [claimTracker.Get, AssumeCache.Get, hset, ObjInfo.latestObj]
  · have hset : lookupKey (B.ns ++ "/" ++ B.name)
        (setKey (B.ns ++ "/" ++ B.name)
          ⟨CacheObj.claim A, some (.claim B)⟩ t.cache.entries)
        = some ⟨CacheObj.claim A, some (.claim B)⟩ :=
      lookupKey_setKey_of_some hk
    simp [claimTracker.GetOriginal, AssumeCache.GetAPIObj, hset]
  · have hset : lookupKey (B.ns ++ "/" ++ B.name)
        (setKey (B.ns ++ "/" ++ B.name)
          ⟨CacheObj.claim A, some (.claim B)⟩ t.cache.entries)
        = some ⟨CacheObj.claim A, some (.claim B)⟩ :=
      lookupKey_setKey_of_some hk
    have hres : lookupKey (B.ns ++ "/" ++ B.name)
        (restoreEntries (B.ns ++ "/" ++ B.name)
          (setKey (B.ns ++ "/" ++ B.name)
            ⟨CacheObj.claim A, some (.claim B)⟩ t.cache.entries))
        = some ⟨CacheObj.claim A, none⟩ := by
      rw [lookupKey_restoreEntries_self, hset]
      rfl
    simp [claimTracker.AssumedClaimRestore, claimTracker.Get,
      AssumeCache.Get, AssumeCache.Restore, hres, ObjInfo.latestObj]

/-- Witness for C4: the round trip on the concrete cache holding
authoritative `claimA` with the newer `claimB` assumed over it. -/
theorem C4_assume_restore_round_trip_witness :
    lookupKey ("ns1" ++ "/" ++ "claim-a") trackerA.cache.entries
      = some ⟨CacheObj.claim claimA, none⟩ ∧
    (⟨CacheObj.claim claimA, none⟩ : ObjInfo).latestObj.version
      < claimB.resourceVersion ∧
    ∃ t', trackerA.AssumeClaimAfterApiCall claimB = .ok t' ∧
      t'.Get claimB.ns claimB.name = .ok claimB ∧
      t'.GetOriginal claimB.ns claimB.name = .ok claimA ∧
      (t'.AssumedClaimRestore claimB.ns claimB.name).Get claimB.ns
        claimB.name = .ok claimA :=
  ⟨by decide, by decide,
   C4_assume_restore_round_trip trackerA claimA claimB
     ⟨CacheObj.claim claimA, none⟩ (by decide) rfl (by decide)⟩

/-- The states reachable using only the tracker's operations, starting
from any cache with an empty ledger; the cache may additionally be
replaced at any point (informer updates), which never touches the
ledger. -/
inductive Reachable : claimTracker → Prop where
  | init (cache : AssumeCache) : Reachable ⟨cache, []⟩
  | signal {t : claimTracker} (uid : String) (c : ResourceClaim) :
      Reachable t → Reachable (t.SignalClaimPendingAllocation uid c)
  | remove {t : claimTracker} (uid : String) :
      Reachable t → Reachable (t.RemoveClaimPendingAllocation uid).2
  | assumeApi {t t' : claimTracker} (c : ResourceClaim) :
      Reachable t → t.AssumeClaimAfterApiCall c = .ok t' → Reachable t'
  | restore {t : claimTracker} (ns claimName : String) :
      Reachable t → Reachable (t.AssumedClaimRestore ns claimName)
  | informer {t : claimTracker} (cache : AssumeCache) :
      Reachable t → Reachable ⟨cache, t.inFlightAllocations⟩

theorem assumeApiCall_ledger_eq {t t' : claimTracker}
    {c : ResourceClaim} (heq : t.AssumeClaimAfterApiCall c = .ok t') :
    t'.inFlightAllocations = t.inFlightAllocations := by
  unfold claimTracker.AssumeClaimAfterApiCall at heq
  cases hc : t.cache.Assume (CacheObj.claim c) with
  | error e => rw [hc] at heq; cases heq
  | ok cc => rw [hc] at heq; cases heq; rfl

/-- C10: in every reachable state, every value stored in the in-flight
ledger is a claim object — only `SignalClaimPendingAllocation` writes to
the ledger and it stores only claims — so the unchecked cast inside
`ListAllAllocated` never fails and the call always returns a value. -/
theorem C10_ledger_values_are_claims {t : claimTracker}
    (h : Reachable t) :
    ledgerWellTyped t ∧ ∃ r, t.ListAllAllocated = some r := by
  have hwt : ledgerWellTyped t := by
    induction h with
    | init cache => intro p hp; simp at hp
    | signal uid c _ ih =>
        intro p hp
        simp only [claimTracker.SignalClaimPendingAllocation, storeKey,
          List.mem_cons] at hp
        rcases hp with h1 | h1
        · subst h1; rfl
        · exact ih p (mem_eraseKey h1)
    | remove uid _ ih =>
        intro p hp
        simp only [claimTracker.RemoveClaimPendingAllocation] at hp
        exact ih p (mem_eraseKey hp)
    | assumeApi c _ heq ih =>
        intro p hp
        rw [assumeApiCall_ledger_eq heq] at hp
        exact ih p hp
    | restore ns claimName _ ih =>
        intro p hp
        simp only [claimTracker.AssumedClaimRestore] at hp
        exact ih p hp
    | informer cache _ ih =>
        intro p hp
        exact ih p hp
  exact ⟨hwt, ⟨.ok (specListAllAllocated t), ListAllAllocated_eq_spec hwt⟩⟩

/-- Witness for C10 at a concrete reachable state: after one signal on
the empty tracker, the ledger is well-typed and `ListAllAllocated`
returns a value. -/
theorem C10_ledger_values_are_claims_witness :
    ledgerWellTyped ((⟨⟨[]⟩, []⟩ : claimTracker).SignalClaimPendingAllocation
      "uid-x" claimX) ∧
    ∃ r, ((⟨⟨[]⟩, []⟩ : claimTracker).SignalClaimPendingAllocation
      "uid-x" claimX).ListAllAllocated = some r :=
  C10_ledger_values_are_claims
    (Reachable.signal "uid-x" claimX (Reachable.init ⟨[]⟩))
